import Mathlib

/-!
Verification of `heightfield_to_obj.py` and `apply_heightfield_to_obj.py`.

Shallow embedding conventions:
* Python floats are idealized as exact rationals (`ℚ`).  All arithmetic in the
  two scripts is `+ - * /` except `np.cos`/`np.sin` (used only at the hardcoded
  angle −90°, where their exact values are 0 and −1) and the square root inside
  `np.linalg.norm` (modelled by `sqrtQ`, exact on perfect rational squares).
* A Python run that raises an exception is modelled as `none`; a completed run
  as `some result`.  In the regions embedded here the only exceptions that can
  occur are `ZeroDivisionError` (generator, zero-size grid) and `IndexError`
  (displacer / writer); `numpy` float division by zero does *not* raise (it
  yields `nan` with a warning), so normalizing a zero-length normal is *not*
  an error path.
* Python / numpy sequence indexing `xs[i]` accepts negative `i` down to
  `-len(xs)` (wrapping from the end) and raises `IndexError` otherwise; this is
  modelled by `Apply.pyIdx` / `Apply.pyGet`.
* `int(x)` truncates toward zero; on a rational `num/den` this is `Int.tdiv`.
-/

/-- A 3-D point/vector: the `(x, y, z)` tuples and numpy length-3 arrays of the
scripts. -/
structure Vec3 where
  x : ℚ
  y : ℚ
  z : ℚ
deriving DecidableEq, Repr

instance : Zero Vec3 := ⟨⟨0, 0, 0⟩⟩

instance : Add Vec3 := ⟨fun a b => ⟨a.x + b.x, a.y + b.y, a.z + b.z⟩⟩

instance : SMul ℚ Vec3 := ⟨fun q a => ⟨q * a.x, q * a.y, q * a.z⟩⟩

theorem Vec3.zero_def : (0 : Vec3) = ⟨0, 0, 0⟩ := rfl

theorem Vec3.add_def (a b : Vec3) : a + b = ⟨a.x + b.x, a.y + b.y, a.z + b.z⟩ := rfl

theorem Vec3.smul_def (q : ℚ) (a : Vec3) : q • a = ⟨q * a.x, q * a.y, q * a.z⟩ := rfl

instance : AddCommMonoid Vec3 where
  add_assoc a b c := by simp [Vec3.add_def, add_assoc]
  zero_add a := by simp [Vec3.add_def, Vec3.zero_def]
  add_zero a := by simp [Vec3.add_def, Vec3.zero_def]
  add_comm a b := by simp [Vec3.add_def]; exact ⟨add_comm _ _, add_comm _ _, add_comm _ _⟩
  nsmul := nsmulRec

namespace HF

/- ===== Embedding of `heightfield_to_obj.py` =====
The embedding starts at line 66 of the script (`z = np.asarray(im) / 255.0`):
the image decoding and Lanczos downsampling are external collaborators, so the
input is the sampled pixel grid `pix` (8-bit values, row-major, `pix y x` =
row `y`, column `x`) together with its shape `h × w`. -/

/-- Faces produced by the generator: literal 4-tuples of 0-based indices. -/
abbrev Face4 := ℕ × ℕ × ℕ × ℕ

/-- Lines 80–85: one top-surface vertex per grid cell, row-major;
`z[y, x] = pix[y][x]/255 * base_thickness + z_add` (lines 66, 73, 77). -/
def topVertices (pix : ℕ → ℕ → ℕ) (h w : ℕ) (sx sy bt za : ℚ) : List Vec3 :=
  (List.range h).flatMap fun (y : ℕ) => (List.range w).map fun (x : ℕ) =>
    ⟨(x : ℚ) * sx, (y : ℚ) * sy, (pix y x : ℚ) / 255 * bt + za⟩

/-- Lines 88–90: the mirrored base layer at `z = -base_thickness`. -/
def baseVertices (h w : ℕ) (sx sy bt : ℚ) : List Vec3 :=
  (List.range h).flatMap fun (y : ℕ) => (List.range w).map fun (x : ℕ) =>
    ⟨(x : ℚ) * sx, (y : ℚ) * sy, -bt⟩

/-- Lines 93–100: the four explicit bottom-corner vertices, appended last. -/
def bottomCorners (ts bt : ℚ) : List Vec3 :=
  [⟨0, 0, -bt⟩, ⟨ts, 0, -bt⟩, ⟨ts, ts, -bt⟩, ⟨0, ts, -bt⟩]

/-- Lines 103–108: top-surface quads `(i, i+1, i+w+1, i+w)` with `i = y*w + x`
for `y < h-1`, `x < w-1`. -/
def topFaces (h w : ℕ) : List Face4 :=
  (List.range (h - 1)).flatMap fun y => (List.range (w - 1)).map fun x =>
    let i := y * w + x
    (i, i + 1, i + w + 1, i + w)

/-- Lines 118–132: the side quads appended for one `(y, x)` iteration of the
side-wall loop (front, back, left, right, in source order). -/
def sideFacesAt (h w y x : ℕ) : List Face4 :=
  let i := y * w + x
  let bi := i + h * w
  (if y = 0 then [(i, i + 1, bi + 1, bi)] else []) ++
  (if y = h - 2 then [(i + w, i + w + 1, bi + w + 1, bi + w)] else []) ++
  (if x = 0 then [(i, i + w, bi + w, bi)] else []) ++
  (if x = w - 2 then [(i + 1, i + w + 1, bi + w + 1, bi + 1)] else [])

/-- Lines 112–132: all side quads, iterating `y < h-1`, `x < w-1` row-major. -/
def sideFaces (h w : ℕ) : List Face4 :=
  (List.range (h - 1)).flatMap fun y => (List.range (w - 1)).flatMap fun x =>
    sideFacesAt h w y x

/-- Lines 134–141: the bottom quad `(n-4, n-3, n-2, n-1)` where
`n = len(vertices) = 2*h*w + 4` in full-field mode. -/
def bottomQuad (h w : ℕ) : Face4 :=
  let n := 2 * h * w + 4
  (n - 4, n - 3, n - 2, n - 1)

/-- Line 150: uniform scaling of every coordinate by `scale_factor`. -/
def scaleVertices (k : ℚ) (vs : List Vec3) : List Vec3 :=
  vs.map fun v => ⟨v.x * k, v.y * k, v.z * k⟩

/-- Lines 19–41, `rotate_x`: rotation of every vertex about the X axis.
The script computes `c = cos θ`, `s = sin θ` with floating-point `np.cos` /
`np.sin`; the rotation itself is `(x, y, z) ↦ (x, y*c - z*s, y*s + z*c)`.
The embedding takes the cosine/sine pair directly; `generate_tile` only ever
calls it at θ = −90°, whose exact cosine/sine are `0` and `-1`. -/
def rotate_x (c s : ℚ) (vs : List Vec3) : List Vec3 :=
  vs.map fun v => ⟨v.x, v.y * c - v.z * s, v.y * s + v.z * c⟩

/-- Lines 80–101: the complete vertex list before the global scale (line 150)
and rotation (line 154): top surface, then (in full-field mode) base layer and
the four bottom corners. `sx = tile_size/w`, `sy = tile_size/h` (lines 71–72). -/
def preScaleVertices (pix : ℕ → ℕ → ℕ) (h w : ℕ) (ts bt za : ℚ) (ff : Bool) :
    List Vec3 :=
  topVertices pix h w (ts / w) (ts / h) bt za ++
    (if ff then baseVertices h w (ts / w) (ts / h) bt ++ bottomCorners ts bt else [])

/-- Lines 103–141: the complete face list: top quads, then (full-field mode)
side quads and the bottom quad. -/
def tileFaces (h w : ℕ) (ff : Bool) : List Face4 :=
  topFaces h w ++ (if ff then sideFaces h w ++ [bottomQuad h w] else [])

/-- Lines 144–155: the saved vertex list: pre-scale vertices, scaled by
`target_size / max(tile_size, tile_size)`, then rotated by −90° about X
(exact cos(−90°) = 0, sin(−90°) = −1). -/
def tileVertices (pix : ℕ → ℕ → ℕ) (h w : ℕ) (ts bt za tg : ℚ) (ff : Bool) :
    List Vec3 :=
  rotate_x 0 (-1) (scaleVertices (tg / max ts ts) (preScaleVertices pix h w ts bt za ff))

/-- Lines 43–158, `generate_tile` from the pixel grid onward.  Python raises
`ZeroDivisionError` at `scale_x = tile_size / w` (resp. `scale_y`) when the
grid has zero width or height (lines 71–72), and at
`scale_factor = target_size / max(tile_size, tile_size)` (line 146) when
`tile_size = 0`; every other step of the modelled region is total.  The pair
returned is what line 158 passes to `save_obj`. -/
def generate_tile (pix : ℕ → ℕ → ℕ) (h w : ℕ) (ts bt za tg : ℚ) (ff : Bool) :
    Option (List Vec3 × List Face4) :=
  if w = 0 ∨ h = 0 then none
  else if ts = 0 then none
  else some (tileVertices pix h w ts bt za tg ff, tileFaces h w ff)

/-- Length of a rectangular flatMap/map comprehension. -/
theorem length_grid {α : Type} (n m : ℕ) (f : ℕ → ℕ → α) :
    ((List.range n).flatMap fun y => (List.range m).map (f y)).length = n * m := by
  induction n with
  | zero => simp
  | succ k ih =>
    rw [List.range_succ, List.flatMap_append, List.length_append, ih]
    simp [Nat.succ_mul]

theorem topVertices_length (pix : ℕ → ℕ → ℕ) (h w : ℕ) (sx sy bt za : ℚ) :
    (topVertices pix h w sx sy bt za).length = h * w := by
  unfold topVertices; exact length_grid h w _

theorem baseVertices_length (h w : ℕ) (sx sy bt : ℚ) :
    (baseVertices h w sx sy bt).length = h * w := by
  unfold baseVertices; exact length_grid h w _

theorem topFaces_length (h w : ℕ) :
    (topFaces h w).length = (h - 1) * (w - 1) := by
  unfold topFaces; exact length_grid (h - 1) (w - 1) _

theorem tileVertices_length (pix : ℕ → ℕ → ℕ) (h w : ℕ) (ts bt za tg : ℚ)
    (ff : Bool) :
    (tileVertices pix h w ts bt za tg ff).length =
      if ff then 2 * w * h + 4 else w * h := by
  unfold tileVertices rotate_x scaleVertices preScaleVertices
  cases ff <;>
    simp [topVertices_length, baseVertices_length, bottomCorners] <;> ring


theorem generate_tile_eq (pix : ℕ → ℕ → ℕ) (h w : ℕ) (ts bt za tg : ℚ)
    (ff : Bool) (hh : 1 ≤ h) (hw : 1 ≤ w) (hts : ts ≠ 0) :
    generate_tile pix h w ts bt za tg ff =
      some (tileVertices pix h w ts bt za tg ff, tileFaces h w ff) := by
  unfold generate_tile
  rw [if_neg (by omega), if_neg hts]

/-- C1 (amended): for every rectangular height grid with `w, h ≥ 2` and any
configuration with `tile_size ≠ 0`, `generate_tile` completes, its face list
starts with exactly `(w-1)*(h-1)` top-surface quads, and its vertex list has
length `w*h` in top-only mode and `2*w*h + 4` in full-solid mode (with
`tile_size = 0` the final rescale divides by zero instead). -/
theorem C1_generate_tile_counts (pix : ℕ → ℕ → ℕ) (h w : ℕ) (ts bt za tg : ℚ)
    (ff : Bool) (hh : 2 ≤ h) (hw : 2 ≤ w) (hts : ts ≠ 0) :
    generate_tile pix h w ts bt za tg ff =
      some (tileVertices pix h w ts bt za tg ff, tileFaces h w ff) ∧
    tileFaces h w ff =
      topFaces h w ++ (if ff then sideFaces h w ++ [bottomQuad h w] else []) ∧
    (topFaces h w).length = (w - 1) * (h - 1) ∧
    (tileVertices pix h w ts bt za tg ff).length =
      if ff then 2 * w * h + 4 else w * h := by
  refine ⟨generate_tile_eq pix h w ts bt za tg ff (by omega) (by omega) hts, rfl,
    ?_, tileVertices_length ..⟩
  rw [topFaces_length, Nat.mul_comm]

/-- Counterexample to C1 as stated (quantifying over all configurations): at
`tile_size = 0` the run raises `ZeroDivisionError` at the final rescale and
produces nothing, even for a 2×2 grid. -/
theorem C1_counterexample :
    generate_tile (fun _ _ => 0) 2 2 0 1 0 1 false = none := by
  unfold generate_tile
  rw [if_neg (by omega), if_pos rfl]

/-- Witness for C1 at a concrete 2×2 grid in full-solid mode. -/
theorem C1_generate_tile_counts_witness :
    generate_tile (fun _ _ => 0) 2 2 1 1 0 1 true =
      some (tileVertices (fun _ _ => 0) 2 2 1 1 0 1 true, tileFaces 2 2 true) ∧
    tileFaces 2 2 true = topFaces 2 2 ++
      (if true then sideFaces 2 2 ++ [bottomQuad 2 2] else []) ∧
    (topFaces 2 2).length = (2 - 1) * (2 - 1) ∧
    (tileVertices (fun _ _ => 0) 2 2 1 1 0 1 true).length =
      if true then 2 * 2 * 2 + 4 else 2 * 2 :=
  C1_generate_tile_counts (fun _ _ => 0) 2 2 1 1 0 1 true (by omega) (by omega)
    (by norm_num)

theorem topFaces_eq_nil (h w : ℕ) (hdeg : w = 1 ∨ h = 1) : topFaces h w = [] := by
  unfold topFaces
  rcases hdeg with rfl | rfl <;> simp

theorem sideFaces_eq_nil (h w : ℕ) (hdeg : w = 1 ∨ h = 1) : sideFaces h w = [] := by
  unfold sideFaces
  rcases hdeg with rfl | rfl <;> simp

/-- C8 (amended): for a nonempty degenerate grid (`w = 1` or `h = 1`, both at
least 1), `generate_tile` completes without error, produces zero top-surface
faces (in full-solid mode the unconditional bottom quad is still emitted), and
the vertex count is `w*h` in top-only mode and `2*w*h + 4` in full-solid mode
(equal to the grid cell count only in top-only mode); `tile_size ≠ 0` is
needed so the final rescale does not divide by zero. -/
theorem C8_degenerate_grid_amended (pix : ℕ → ℕ → ℕ) (h w : ℕ)
    (ts bt za tg : ℚ) (ff : Bool) (hh : 1 ≤ h) (hw : 1 ≤ w)
    (hts : ts ≠ 0) (hdeg : w = 1 ∨ h = 1) :
    generate_tile pix h w ts bt za tg ff =
      some (tileVertices pix h w ts bt za tg ff,
        if ff then [bottomQuad h w] else []) ∧
    topFaces h w = [] ∧
    (tileVertices pix h w ts bt za tg ff).length =
      if ff then 2 * w * h + 4 else w * h := by
  have ht := topFaces_eq_nil h w hdeg
  have hs := sideFaces_eq_nil h w hdeg
  refine ⟨?_, ht, tileVertices_length ..⟩
  rw [generate_tile_eq pix h w ts bt za tg ff hh hw hts]
  unfold tileFaces
  rw [ht, hs]
  cases ff <;> simp

/-- Witness for the amended C8 at a concrete 1×3 grid in top-only mode. -/
theorem C8_degenerate_grid_amended_witness :
    generate_tile (fun _ _ => 7) 1 3 1 1 0 1 false =
      some (tileVertices (fun _ _ => 7) 1 3 1 1 0 1 false,
        if false then [bottomQuad 1 3] else []) ∧
    topFaces 1 3 = [] ∧
    (tileVertices (fun _ _ => 7) 1 3 1 1 0 1 false).length =
      if false then 2 * 3 * 1 + 4 else 3 * 1 :=
  C8_degenerate_grid_amended (fun _ _ => 7) 1 3 1 1 0 1 false (by omega) (by omega)
    (by norm_num) (by omega)

/-- Counterexample to C8 as stated: on the 1×1 grid in full-solid mode the
run completes with 6 vertices, which is not the grid cell count `1*1 = 1`
(the claim asserts the vertex count always equals the cell count). -/
theorem C8_counterexample :
    generate_tile (fun _ _ => 0) 1 1 1 1 0 1 true =
      some (tileVertices (fun _ _ => 0) 1 1 1 1 0 1 true, [bottomQuad 1 1]) ∧
    (tileVertices (fun _ _ => 0) 1 1 1 1 0 1 true).length = 6 ∧
    (6 : ℕ) ≠ 1 * 1 := by
  refine ⟨?_, ?_, by omega⟩
  · rw [generate_tile_eq (fun _ _ => 0) 1 1 1 1 0 1 true (by omega) (by omega)
      (by norm_num)]
    unfold tileFaces
    rw [topFaces_eq_nil 1 1 (Or.inl rfl), sideFaces_eq_nil 1 1 (Or.inl rfl)]
    simp
  · rw [tileVertices_length]
    norm_num

theorem mem_grid {α : Type} {n m : ℕ} {f : ℕ → ℕ → α} {v : α}
    (hv : v ∈ (List.range n).flatMap fun y => (List.range m).map (f y)) :
    ∃ y x, y < n ∧ x < m ∧ v = f y x := by
  simp only [List.mem_flatMap, List.mem_map, List.mem_range] at hv
  obtain ⟨y, hy, x, hx, rfl⟩ := hv
  exact ⟨y, x, hy, hx, rfl⟩

/-- C10 (amended, adding the hypothesis `0 < tile_size`): in full-solid mode
the four bottom corners (appended last) have x, y in `{0, tile_size}`, while
every top-surface and base-layer vertex has x at most `tile_size*(w-1)/w` and
y at most `tile_size*(h-1)/h`, and those bounds are strictly below
`tile_size`: the bottom quad footprint strictly exceeds the grid footprint. -/
theorem C10_footprint_amended (pix : ℕ → ℕ → ℕ) (h w : ℕ) (ts bt za : ℚ)
    (hh : 2 ≤ h) (hw : 2 ≤ w) (hts : 0 < ts) :
    preScaleVertices pix h w ts bt za true =
      (topVertices pix h w (ts / w) (ts / h) bt za ++
        baseVertices h w (ts / w) (ts / h) bt) ++ bottomCorners ts bt ∧
    (∀ v ∈ bottomCorners ts bt, (v.x = 0 ∨ v.x = ts) ∧ (v.y = 0 ∨ v.y = ts)) ∧
    (∀ v ∈ topVertices pix h w (ts / w) (ts / h) bt za ++
        baseVertices h w (ts / w) (ts / h) bt,
      v.x ≤ ts * ((w : ℚ) - 1) / w ∧ v.y ≤ ts * ((h : ℚ) - 1) / h) ∧
    ts * ((w : ℚ) - 1) / w < ts ∧ ts * ((h : ℚ) - 1) / h < ts := by
  have hw0 : (0 : ℚ) < w := by exact_mod_cast Nat.lt_of_lt_of_le Nat.zero_lt_two hw
  have hh0 : (0 : ℚ) < h := by exact_mod_cast Nat.lt_of_lt_of_le Nat.zero_lt_two hh
  have hxb : ∀ k : ℕ, k < w → (k : ℚ) * (ts / w) ≤ ts * ((w : ℚ) - 1) / w := by
    intro k hk
    have hkle : (k : ℚ) ≤ (w : ℚ) - 1 := by
      have : (k : ℚ) + 1 ≤ (w : ℚ) := by exact_mod_cast hk
      linarith
    have hq : (0 : ℚ) ≤ ts / w := le_of_lt (div_pos hts hw0)
    calc (k : ℚ) * (ts / w) ≤ ((w : ℚ) - 1) * (ts / w) :=
          mul_le_mul_of_nonneg_right hkle hq
      _ = ts * ((w : ℚ) - 1) / w := by ring
  have hyb : ∀ k : ℕ, k < h → (k : ℚ) * (ts / h) ≤ ts * ((h : ℚ) - 1) / h := by
    intro k hk
    have hkle : (k : ℚ) ≤ (h : ℚ) - 1 := by
      have : (k : ℚ) + 1 ≤ (h : ℚ) := by exact_mod_cast hk
      linarith
    have hq : (0 : ℚ) ≤ ts / h := le_of_lt (div_pos hts hh0)
    calc (k : ℚ) * (ts / h) ≤ ((h : ℚ) - 1) * (ts / h) :=
          mul_le_mul_of_nonneg_right hkle hq
      _ = ts * ((h : ℚ) - 1) / h := by ring
  refine ⟨by simp [preScaleVertices, List.append_assoc], ?_, ?_, ?_, ?_⟩
  · intro v hv
    simp only [bottomCorners, List.mem_cons, List.not_mem_nil, or_false] at hv
    rcases hv with rfl | rfl | rfl | rfl <;> simp
  · intro v hv
    rcases List.mem_append.mp hv with hm | hm
    · obtain ⟨y, x, hy, hx, rfl⟩ := mem_grid hm
      exact ⟨hxb x hx, hyb y hy⟩
    · obtain ⟨y, x, hy, hx, rfl⟩ := mem_grid hm
      exact ⟨hxb x hx, hyb y hy⟩
  · rw [div_lt_iff₀ hw0]
    nlinarith
  · rw [div_lt_iff₀ hh0]
    nlinarith

/-- Witness for the amended C10 at a concrete 2×2 grid with tile_size 2. -/
theorem C10_footprint_amended_witness :
    preScaleVertices (fun _ _ => 0) 2 2 2 1 0 true =
      (topVertices (fun _ _ => 0) 2 2 (2 / 2) (2 / 2) 1 0 ++
        baseVertices 2 2 (2 / 2) (2 / 2) 1) ++ bottomCorners 2 1 ∧
    (∀ v ∈ bottomCorners 2 1, (v.x = 0 ∨ v.x = 2) ∧ (v.y = 0 ∨ v.y = 2)) ∧
    (∀ v ∈ topVertices (fun _ _ => 0) 2 2 (2 / 2) (2 / 2) 1 0 ++
        baseVertices 2 2 (2 / 2) (2 / 2) 1,
      v.x ≤ 2 * ((2 : ℚ) - 1) / 2 ∧ v.y ≤ 2 * ((2 : ℚ) - 1) / 2) ∧
    2 * ((2 : ℚ) - 1) / 2 < 2 ∧ 2 * ((2 : ℚ) - 1) / 2 < 2 :=
  C10_footprint_amended (fun _ _ => 0) 2 2 2 1 0 (by omega) (by omega) (by norm_num)

/-- Counterexample to C10 as stated (no positivity assumption on `tile_size`):
with `tile_size = -1` and a 2×2 grid the run completes, but the top-surface
vertex `(0,0,0)` has x-coordinate `0`, which is neither at most
`tile_size*(w-1)/w = -1/2` nor strictly below `tile_size = -1`. -/
theorem C10_counterexample :
    (⟨0, 0, 0⟩ : Vec3) ∈
      topVertices (fun _ _ => 0) 2 2 ((-1 : ℚ) / 2) ((-1 : ℚ) / 2) 1 0 ∧
    ¬ ((0 : ℚ) ≤ (-1 : ℚ) * ((2 : ℚ) - 1) / 2) ∧ ¬ ((0 : ℚ) < -1) := by
  refine ⟨?_, by norm_num, by norm_num⟩
  norm_num [topVertices, List.range_succ]

def pixC2 : ℕ → ℕ → ℕ := fun y x => if y = x then 0 else 255

theorem pixC2_prescale :
    preScaleVertices pixC2 2 2 2 1 0 false =
      [⟨0, 0, 0⟩, ⟨1, 0, 1⟩, ⟨0, 1, 1⟩, ⟨1, 1, 0⟩] := by
  norm_num [preScaleVertices, topVertices, pixC2, List.range_succ]

/-- C2 (amended): on the 2×2 grid `[[0,255],[255,0]]` with `tile_size=2`,
`base_thickness=1`, `z_add=0`, `target_size=1`, top-only mode, the pre-scale
top vertices are `(0,0,0),(1,0,1),(0,1,1),(1,1,0)`, exactly one face
`(0,1,3,2)` is emitted, and the saved vertex coordinates are those positions
scaled by `1/2` *and then rotated −90° about the X axis* (`(x,y,z) ↦
(x,z,−y)`), giving `(0,0,0),(1/2,1/2,0),(0,1/2,−1/2),(1/2,0,−1/2)`. -/
theorem C2_example_scenario_amended :
    preScaleVertices pixC2 2 2 2 1 0 false =
      [⟨0, 0, 0⟩, ⟨1, 0, 1⟩, ⟨0, 1, 1⟩, ⟨1, 1, 0⟩] ∧
    tileFaces 2 2 false = [(0, 1, 3, 2)] ∧
    tileVertices pixC2 2 2 2 1 0 1 false =
      rotate_x 0 (-1) (scaleVertices (1 / 2) (preScaleVertices pixC2 2 2 2 1 0 false)) ∧
    generate_tile pixC2 2 2 2 1 0 1 false =
      some ([⟨0, 0, 0⟩, ⟨1/2, 1/2, 0⟩, ⟨0, 1/2, -(1/2)⟩, ⟨1/2, 0, -(1/2)⟩],
        [(0, 1, 3, 2)]) := by
  have hfaces : tileFaces 2 2 false = [(0, 1, 3, 2)] := by
    unfold tileFaces topFaces
    simp [List.range_succ]
  have hverts : tileVertices pixC2 2 2 2 1 0 1 false =
      [⟨0, 0, 0⟩, ⟨1/2, 1/2, 0⟩, ⟨0, 1/2, -(1/2)⟩, ⟨1/2, 0, -(1/2)⟩] := by
    unfold tileVertices rotate_x scaleVertices
    rw [pixC2_prescale]
    norm_num
  refine ⟨pixC2_prescale, hfaces, ?_, ?_⟩
  · unfold tileVertices
    norm_num
  · rw [generate_tile_eq pixC2 2 2 2 1 0 1 false (by omega) (by omega)
      (by norm_num), hverts, hfaces]

/-- Counterexample to C2 as stated: the saved vertices are *not* simply the
pre-scale positions scaled by `1/2` — the −90° rotation about X is applied
afterwards (the second vertex is `(1/2,1/2,0)`, not `(1/2,0,1/2)`). -/
theorem C2_example_scenario_counterexample :
    tileVertices pixC2 2 2 2 1 0 1 false ≠
      scaleVertices (1 / 2) (preScaleVertices pixC2 2 2 2 1 0 false) := by
  unfold tileVertices rotate_x scaleVertices
  rw [pixC2_prescale]
  norm_num

end HF

namespace Apply

/- ===== Embedding of `apply_heightfield_to_obj.py` =====
The mesh file is modelled at token level: one constructor per recognized
directive (`v`, `vt`, `f`, anything else).  A face line carries the already
extracted primary indices (the reader keeps `int(tok.split('/')[0])` only,
discarding texture/normal sub-indices); number formatting/parsing of the text
format is exact in the rational idealization. -/

/-- One line of the OBJ text format. -/
inductive ObjLine
  | v (x y z : ℚ)
  | vt (u w : ℚ)
  | f (idxs : List ℤ)
  | other
deriving DecidableEq, Repr

/-- Lines 4–33, `load_obj`: scan the lines in order, collecting vertices, faces
(1-based indices converted to 0-based by subtracting 1) and UVs; unrecognized
lines are skipped. -/
def load_obj : List ObjLine → List Vec3 × List (List ℤ) × List (ℚ × ℚ)
  | [] => ([], [], [])
  | line :: rest =>
    let r := load_obj rest
    match line with
    | .v x y z => (⟨x, y, z⟩ :: r.1, r.2.1, r.2.2)
    | .f idxs => (r.1, idxs.map (fun i => i - 1) :: r.2.1, r.2.2)
    | .vt u w => (r.1, r.2.1, (u, w) :: r.2.2)
    | .other => r

/-- Lines 47–48 (identical in `heightfield_to_obj.py`, lines 16–17): the face
line written for one face — exactly the first four indices, each incremented
by 1; any further entries are ignored; `face[k]` raises `IndexError` when the
face has fewer than four entries. -/
def faceLine (face : List ℤ) : Option ObjLine := do
  let a ← face.get? 0
  let b ← face.get? 1
  let c ← face.get? 2
  let d ← face.get? 3
  pure (ObjLine.f [a + 1, b + 1, c + 1, d + 1])

/-- Lines 35–48, `save_obj` (and the identical writer of
`heightfield_to_obj.py`, lines 4–17): one `v` line per vertex in order, then
one quad `f` line per face; `none` when some face is shorter than 4. -/
def save_obj (vertices : List Vec3) (faces : List (List ℤ)) :
    Option (List ObjLine) := do
  let fl ← faces.mapM faceLine
  pure (vertices.map (fun v => ObjLine.v v.x v.y v.z) ++ fl)

/-- Python sequence indexing: `xs[i]` for `0 ≤ i < n` is element `i`, for
`-n ≤ i < 0` it wraps to element `n + i`, anything else raises `IndexError`.
Returns the resolved nonnegative position. -/
def pyIdx (n : ℕ) (i : ℤ) : Option ℕ :=
  if 0 ≤ i ∧ i < (n : ℤ) then some i.toNat
  else if -(n : ℤ) ≤ i ∧ i < 0 then some (i + n).toNat
  else none

/-- Python list lookup `xs[i]` (wrapping negative indices, `none` = raise). -/
def pyGet {α : Type} (xs : List α) (i : ℤ) : Option α :=
  (pyIdx xs.length i).bind xs.get?

/-- Python `int(·)` on a rational: truncation toward zero. -/
def truncQ (q : ℚ) : ℤ := q.num.tdiv (q.den : ℤ)

/-- Rational stand-in for the floating `np.sqrt`: exact on perfect rational
squares (the only values the concrete developments below exercise);
arbitrary (but total) elsewhere. -/
def sqrtQ (q : ℚ) : ℚ := (Nat.sqrt q.num.toNat : ℚ) / (Nat.sqrt q.den : ℚ)

/-- `v1 - v0` on numpy length-3 arrays. -/
def vsub (a b : Vec3) : Vec3 := ⟨a.x - b.x, a.y - b.y, a.z - b.z⟩

/-- `np.cross` of two length-3 arrays. -/
def cross (a b : Vec3) : Vec3 :=
  ⟨a.y * b.z - a.z * b.y, a.z * b.x - a.x * b.z, a.x * b.y - a.y * b.x⟩

/-- `np.linalg.norm`: square root of the sum of squares. -/
def norm3 (v : Vec3) : ℚ := sqrtQ (v.x ^ 2 + v.y ^ 2 + v.z ^ 2)

/-- Lines 50–74, `calculate_face_normal`: cross product of the two edge
vectors, divided componentwise by its norm.  When the cross product is zero
the numpy division is `0/0 = nan` (with a `RuntimeWarning`, *not* an
exception); in the exact model the junk value is `0`. -/
def calculate_face_normal (v0 v1 v2 : Vec3) : Vec3 :=
  let edge1 := vsub v1 v0
  let edge2 := vsub v2 v0
  let normal := cross edge1 edge2
  ⟨normal.x / norm3 normal, normal.y / norm3 normal, normal.z / norm3 normal⟩

/-- Lines 104–114: UV sampling of the heightmap for one vertex:
`u_idx = int(u*(w-1))`, `v_idx = int((1-v)*(h-1))` (V axis flipped), then the
numpy 2-D lookup `heightmap_array[v_idx, u_idx]` (negative indices wrap,
out-of-range raises `IndexError`). -/
def uvLookup (hm : ℕ → ℕ → ℚ) (hmh hmw : ℕ) (u v : ℚ) : Option ℚ := do
  let ui ← pyIdx hmw (truncQ (u * ((hmw : ℚ) - 1)))
  let vi ← pyIdx hmh (truncQ ((1 - v) * ((hmh : ℚ) - 1)))
  pure (hm vi ui)

/-- Lines 104–118, body of the inner loop `for i in face`: look up `uvs[i]`,
sample the heightmap there, and add `normal * height_value *
displacement_scale` to `displaced_vertices[i]`. -/
def displaceVertex (hm : ℕ → ℕ → ℚ) (hmh hmw : ℕ) (ds : ℚ)
    (uvs : List (ℚ × ℚ)) (normal : Vec3) (dv : List Vec3) (i : ℤ) :
    Option (List Vec3) := do
  let uv ← pyGet uvs i
  let hv ← uvLookup hm hmh hmw uv.1 uv.2
  let j ← pyIdx dv.length i
  let cur ← dv.get? j
  pure (dv.set j (cur + (hv * ds) • normal))

/-- Lines 96–118, body of the loop `for face in faces`: take the face's first
three indices (`IndexError` if fewer), look the three vertices up in the
*original* vertex list, compute the face normal from them, then displace every
vertex referenced by the face. -/
def displaceFace (vertices : List Vec3) (uvs : List (ℚ × ℚ))
    (hm : ℕ → ℕ → ℚ) (hmh hmw : ℕ) (ds : ℚ) (dv : List Vec3)
    (face : List ℤ) : Option (List Vec3) := do
  let i0 ← face.get? 0
  let i1 ← face.get? 1
  let i2 ← face.get? 2
  let v0 ← pyGet vertices i0
  let v1 ← pyGet vertices i1
  let v2 ← pyGet vertices i2
  let normal := calculate_face_normal v0 v1 v2
  face.foldlM (displaceVertex hm hmh hmw ds uvs normal) dv

/-- Lines 95–118: the displacement pass — `displaced_vertices` starts as a
copy of the original vertex array and each face adds its contributions. -/
def displace_vertices (vertices : List Vec3) (uvs : List (ℚ × ℚ))
    (hm : ℕ → ℕ → ℚ) (hmh hmw : ℕ) (ds : ℚ) (faces : List (List ℤ)) :
    Option (List Vec3) :=
  faces.foldlM (displaceFace vertices uvs hm hmh hmw ds) vertices

/-- Lines 76–121, `apply_heightfield_to_obj` after the three loads: displace
all vertices, then write the result with `save_obj`.  The heightmap is the
normalized grid (`np.array(img)/255`) of shape `hmh × hmw`. -/
def apply_heightfield_to_obj (vertices : List Vec3) (faces : List (List ℤ))
    (uvs : List (ℚ × ℚ)) (hm : ℕ → ℕ → ℚ) (hmh hmw : ℕ) (ds : ℚ) :
    Option (List ObjLine) := do
  let dv ← displace_vertices vertices uvs hm hmh hmw ds faces
  save_obj dv faces

theorem truncQ_eq_floor (q : ℚ) (hq : 0 ≤ q) : truncQ q = ⌊q⌋ := by
  unfold truncQ
  rw [Int.tdiv_eq_ediv (Rat.num_nonneg.mpr hq) (by positivity), Rat.floor_def]

theorem pyIdx_pos {n : ℕ} {i : ℤ} (h0 : 0 ≤ i) (h1 : i < (n : ℤ)) :
    pyIdx n i = some i.toNat := by
  unfold pyIdx
  rw [if_pos ⟨h0, h1⟩]

theorem truncQ_sample_bounds {q : ℚ} {n : ℕ} (h0 : 0 ≤ q)
    (h1 : q ≤ (n : ℚ) - 1) : 0 ≤ truncQ q ∧ truncQ q < (n : ℤ) := by
  rw [truncQ_eq_floor q h0]
  have hlt : q < ((n : ℤ) : ℚ) := by push_cast; linarith
  exact ⟨Int.floor_nonneg.mpr h0, Int.floor_lt.mpr hlt⟩

/-- Success and value of the UV heightmap lookup for in-range UVs on a
nonempty heightmap. -/
theorem uvLookup_eq (hm : ℕ → ℕ → ℚ) (hmh hmw : ℕ) (u v : ℚ)
    (hh : 1 ≤ hmh) (hw : 1 ≤ hmw) (hu0 : 0 ≤ u) (hu1 : u ≤ 1)
    (hv0 : 0 ≤ v) (hv1 : v ≤ 1) :
    uvLookup hm hmh hmw u v =
      some (hm (truncQ ((1 - v) * ((hmh : ℚ) - 1))).toNat
        (truncQ (u * ((hmw : ℚ) - 1))).toNat) := by
  have hw1 : (1 : ℚ) ≤ (hmw : ℚ) := by exact_mod_cast hw
  have hh1 : (1 : ℚ) ≤ (hmh : ℚ) := by exact_mod_cast hh
  have hu : 0 ≤ u * ((hmw : ℚ) - 1) ∧ u * ((hmw : ℚ) - 1) ≤ (hmw : ℚ) - 1 :=
    ⟨mul_nonneg hu0 (by linarith), by nlinarith⟩
  have hv : 0 ≤ (1 - v) * ((hmh : ℚ) - 1) ∧
      (1 - v) * ((hmh : ℚ) - 1) ≤ (hmh : ℚ) - 1 :=
    ⟨mul_nonneg (by linarith) (by linarith), by nlinarith⟩
  obtain ⟨hu2, hu3⟩ := truncQ_sample_bounds hu.1 hu.2
  obtain ⟨hv2, hv3⟩ := truncQ_sample_bounds hv.1 hv.2
  unfold uvLookup
  rw [pyIdx_pos hu2 hu3, pyIdx_pos hv2 hv3]
  rfl

/-- C3: UV sampling reads the grid entry at column `trunc(u*(w-1))` and row
`trunc((1-v)*(h-1))` (truncation toward zero, V axis flipped); in particular
`(0,0)` reads the bottom row's left pixel (row `h-1`, column `0`) and `(1,1)`
reads the top row's right pixel (row `0`, column `w-1`). -/
theorem C3_uv_sampling (hm : ℕ → ℕ → ℚ) (hmh hmw : ℕ) (u v : ℚ)
    (hh : 1 ≤ hmh) (hw : 1 ≤ hmw) (hu0 : 0 ≤ u) (hu1 : u ≤ 1)
    (hv0 : 0 ≤ v) (hv1 : v ≤ 1) :
    uvLookup hm hmh hmw u v =
      some (hm (truncQ ((1 - v) * ((hmh : ℚ) - 1))).toNat
        (truncQ (u * ((hmw : ℚ) - 1))).toNat) ∧
    uvLookup hm hmh hmw 0 0 = some (hm (hmh - 1) 0) ∧
    uvLookup hm hmh hmw 1 1 = some (hm 0 (hmw - 1)) := by
  have hzero : truncQ 0 = 0 := by
    rw [truncQ_eq_floor 0 le_rfl, Int.floor_zero]
  have htop : ∀ n : ℕ, 1 ≤ n → (truncQ ((n : ℚ) - 1)).toNat = n - 1 := by
    intro n hn
    have h0 : (0 : ℚ) ≤ (n : ℚ) - 1 := by
      have : (1 : ℚ) ≤ (n : ℚ) := by exact_mod_cast hn
      linarith
    rw [truncQ_eq_floor _ h0]
    have : ⌊(n : ℚ) - 1⌋ = (n : ℤ) - 1 := by
      rw [show ((n : ℚ) - 1) = ((((n : ℤ) - 1 : ℤ)) : ℚ) by push_cast; ring,
        Int.floor_intCast]
    rw [this]
    omega
  refine ⟨uvLookup_eq hm hmh hmw u v hh hw hu0 hu1 hv0 hv1, ?_, ?_⟩
  · rw [uvLookup_eq hm hmh hmw 0 0 hh hw le_rfl zero_le_one le_rfl zero_le_one]
    rw [show (1 - (0 : ℚ)) * ((hmh : ℚ) - 1) = (hmh : ℚ) - 1 by ring,
      show (0 : ℚ) * ((hmw : ℚ) - 1) = 0 by ring, hzero, htop hmh hh]
    rfl
  · rw [uvLookup_eq hm hmh hmw 1 1 hh hw zero_le_one le_rfl zero_le_one le_rfl]
    rw [show (1 - (1 : ℚ)) * ((hmh : ℚ) - 1) = 0 by ring,
      show (1 : ℚ) * ((hmw : ℚ) - 1) = (hmw : ℚ) - 1 by ring, hzero, htop hmw hw]
    rfl

/-- Witness for C3 on a concrete 2×3 heightmap at `(u, v) = (1/2, 1/4)`. -/
theorem C3_uv_sampling_witness :
    uvLookup (fun i j => (i : ℚ) * 10 + (j : ℚ)) 2 3 (1/2) (1/4) =
      some (((truncQ ((1 - 1/4) * (((2 : ℕ) : ℚ) - 1))).toNat : ℚ) * 10 +
        ((truncQ ((1/2) * (((3 : ℕ) : ℚ) - 1))).toNat : ℚ)) ∧
    uvLookup (fun i j => (i : ℚ) * 10 + (j : ℚ)) 2 3 0 0 =
      some (((2 - 1 : ℕ) : ℚ) * 10 + ((0 : ℕ) : ℚ)) ∧
    uvLookup (fun i j => (i : ℚ) * 10 + (j : ℚ)) 2 3 1 1 =
      some (((0 : ℕ) : ℚ) * 10 + ((3 - 1 : ℕ) : ℚ)) :=
  C3_uv_sampling (fun i j => (i : ℚ) * 10 + (j : ℚ)) 2 3 (1/2) (1/4)
    (by omega) (by omega) (by norm_num) (by norm_num) (by norm_num) (by norm_num)

theorem get?_eq_some_getD {α : Type} :
    ∀ (l : List α) (k : ℕ), k < l.length → ∀ d : α, l.get? k = some (l.getD k d)
  | _ :: _, 0, _, _ => rfl
  | _ :: l, k + 1, h, d => get?_eq_some_getD l k (by simpa using h) d

/-- A face of length ≥ 4 yields a quad line built from exactly its first four
indices, each incremented by 1 (further entries ignored). -/
theorem faceLine_eq_quad {face : List ℤ} (h : 4 ≤ face.length) :
    faceLine face =
      some (ObjLine.f [face.getD 0 0 + 1, face.getD 1 0 + 1,
        face.getD 2 0 + 1, face.getD 3 0 + 1]) := by
  unfold faceLine
  rw [get?_eq_some_getD face 0 (by omega) 0, get?_eq_some_getD face 1 (by omega) 0,
    get?_eq_some_getD face 2 (by omega) 0, get?_eq_some_getD face 3 (by omega) 0]
  rfl

/-- A face of length < 4 makes the writer raise (`face[k]` out of range) with
no quad line produced for it. -/
theorem faceLine_eq_none {face : List ℤ} (h : face.length < 4) :
    faceLine face = none := by
  match face with
  | [] => rfl
  | [_] => rfl
  | [_, _] => rfl
  | [_, _, _] => rfl
  | _ :: _ :: _ :: _ :: _ :: _ => simp at h; omega

theorem mapM_faceLine_eq (faces : List (List ℤ))
    (h : ∀ f ∈ faces, 4 ≤ f.length) :
    faces.mapM faceLine = some (faces.map fun f =>
      ObjLine.f [f.getD 0 0 + 1, f.getD 1 0 + 1, f.getD 2 0 + 1,
        f.getD 3 0 + 1]) := by
  induction faces with
  | nil => rfl
  | cons f fs ih =>
    rw [List.mapM_cons, faceLine_eq_quad (h f (List.mem_cons_self ..)),
      ih fun g hg => h g (List.mem_cons_of_mem _ hg)]
    rfl

theorem mapM_faceLine_none {faces : List (List ℤ)} {f : List ℤ}
    (hmem : f ∈ faces) (hf : faceLine f = none) :
    faces.mapM faceLine = none := by
  induction faces with
  | nil => cases hmem
  | cons g gs ih =>
    rw [List.mapM_cons]
    rcases List.mem_cons.mp hmem with rfl | hmem2
    · rw [hf]; rfl
    · cases hg : faceLine g with
      | none => rfl
      | some a =>
        rw [ih hmem2]
        rfl

/-- Success and output of `save_obj` when every face has at least four
entries. -/
theorem save_obj_eq (vertices : List Vec3) (faces : List (List ℤ))
    (h : ∀ f ∈ faces, 4 ≤ f.length) :
    save_obj vertices faces =
      some (vertices.map (fun v => ObjLine.v v.x v.y v.z) ++
        faces.map fun f => ObjLine.f [f.getD 0 0 + 1, f.getD 1 0 + 1,
          f.getD 2 0 + 1, f.getD 3 0 + 1]) := by
  unfold save_obj
  rw [mapM_faceLine_eq faces h]
  rfl

/-- C9: `save_obj` writes, for each face, exactly the face's first four
indices incremented by 1 — silently ignoring any further entries — and raises
an index error (producing no output) as soon as some face has fewer than four
entries, with no quad line completed for that face. -/
theorem C9_save_obj_first_four (vertices : List Vec3) (faces : List (List ℤ)) :
    ((∀ f ∈ faces, 4 ≤ f.length) →
      save_obj vertices faces =
        some (vertices.map (fun v => ObjLine.v v.x v.y v.z) ++
          faces.map fun f => ObjLine.f [f.getD 0 0 + 1, f.getD 1 0 + 1,
            f.getD 2 0 + 1, f.getD 3 0 + 1])) ∧
    (∀ f ∈ faces, f.length < 4 →
      faceLine f = none ∧ save_obj vertices faces = none) := by
  refine ⟨save_obj_eq vertices faces, fun f hf hlen => ?_⟩
  have hnone := faceLine_eq_none hlen
  refine ⟨hnone, ?_⟩
  unfold save_obj
  rw [mapM_faceLine_none hf hnone]
  rfl

/-- Witness for C9: a five-index face is written as its first four indices
plus one; a two-index face aborts the writer. -/
theorem C9_save_obj_first_four_witness :
    save_obj [] [[0, 1, 2, 3, 9]] =
      some (([] : List Vec3).map (fun v => ObjLine.v v.x v.y v.z) ++
        [[(0 : ℤ), 1, 2, 3, 9]].map fun f => ObjLine.f [f.getD 0 0 + 1,
          f.getD 1 0 + 1, f.getD 2 0 + 1, f.getD 3 0 + 1]) ∧
    faceLine [0, 1] = none ∧ save_obj [] [[(0 : ℤ), 1]] = none := by
  refine ⟨(C9_save_obj_first_four [] [[0, 1, 2, 3, 9]]).1 ?_,
    (C9_save_obj_first_four [] [[(0 : ℤ), 1]]).2 [0, 1] ?_ ?_⟩
  · intro f hf
    rw [List.mem_singleton] at hf
    subst hf
    decide
  · exact List.mem_singleton.mpr rfl
  · decide

theorem load_obj_vlines (vs : List Vec3) (rest : List ObjLine) :
    load_obj (vs.map (fun v => ObjLine.v v.x v.y v.z) ++ rest) =
      (vs ++ (load_obj rest).1, (load_obj rest).2.1, (load_obj rest).2.2) := by
  induction vs with
  | nil => simp [load_obj]
  | cons v vs ih => simp [load_obj, ih]

theorem load_obj_flines (faces : List (List ℤ)) :
    load_obj (faces.map fun f => ObjLine.f [f.getD 0 0 + 1, f.getD 1 0 + 1,
        f.getD 2 0 + 1, f.getD 3 0 + 1]) =
      ([], faces.map (fun f => [f.getD 0 0, f.getD 1 0, f.getD 2 0, f.getD 3 0]),
        []) := by
  induction faces with
  | nil => rfl
  | cons f fs ih =>
    simp only [List.map_cons, load_obj, ih, List.map_nil]
    simp only [add_sub_cancel_right]

theorem getD_quad_eq {α : Type} {f : List α} (h : f.length = 4) (d : α) :
    [f.getD 0 d, f.getD 1 d, f.getD 2 d, f.getD 3 d] = f := by
  match f with
  | [_, _, _, _] => rfl
  | [] | [_] | [_, _] | [_, _, _] => simp at h
  | _ :: _ :: _ :: _ :: _ :: _ => simp at h

/-- C5: for a mesh whose faces are quads (exactly four in-range indices each),
writing with `save_obj` succeeds and reading the written lines back with
`load_obj` recovers the vertex positions exactly (the rational idealization of
"equal within floating-point tolerance") and the face index tuples identically
(written 1-based, read back 0-based).  No `vt` lines are written, so the read
UV list is empty. -/
theorem C5_save_load_roundtrip (vertices : List Vec3) (faces : List (List ℤ))
    (hf : ∀ f ∈ faces, f.length = 4 ∧ ∀ i ∈ f, 0 ≤ i ∧ i < (vertices.length : ℤ)) :
    save_obj vertices faces =
      some (vertices.map (fun v => ObjLine.v v.x v.y v.z) ++
        faces.map fun f => ObjLine.f [f.getD 0 0 + 1, f.getD 1 0 + 1,
          f.getD 2 0 + 1, f.getD 3 0 + 1]) ∧
    load_obj (vertices.map (fun v => ObjLine.v v.x v.y v.z) ++
        faces.map fun f => ObjLine.f [f.getD 0 0 + 1, f.getD 1 0 + 1,
          f.getD 2 0 + 1, f.getD 3 0 + 1]) =
      (vertices, faces, []) := by
  refine ⟨save_obj_eq vertices faces fun f hmem => le_of_eq (hf f hmem).1.symm, ?_⟩
  rw [load_obj_vlines, load_obj_flines]
  have hmapid : faces.map (fun f => [f.getD 0 0, f.getD 1 0, f.getD 2 0,
      f.getD 3 0]) = faces := by
    conv_rhs => rw [show faces = faces.map id from (List.map_id faces).symm]
    exact List.map_congr_left fun f hmem => getD_quad_eq (hf f hmem).1 0
  rw [hmapid]
  simp

/-- Witness for C5 on a concrete one-quad mesh. -/
theorem C5_save_load_roundtrip_witness :
    save_obj [⟨0, 0, 0⟩, ⟨1, 0, 0⟩, ⟨1, 1, 0⟩, ⟨0, 1, 0⟩] [[0, 1, 2, 3]] =
      some ([⟨0, 0, 0⟩, ⟨1, 0, 0⟩, ⟨1, 1, 0⟩, (⟨0, 1, 0⟩ : Vec3)].map
          (fun v => ObjLine.v v.x v.y v.z) ++
        [[(0 : ℤ), 1, 2, 3]].map fun f => ObjLine.f [f.getD 0 0 + 1,
          f.getD 1 0 + 1, f.getD 2 0 + 1, f.getD 3 0 + 1]) ∧
    load_obj ([⟨0, 0, 0⟩, ⟨1, 0, 0⟩, ⟨1, 1, 0⟩, (⟨0, 1, 0⟩ : Vec3)].map
          (fun v => ObjLine.v v.x v.y v.z) ++
        [[(0 : ℤ), 1, 2, 3]].map fun f => ObjLine.f [f.getD 0 0 + 1,
          f.getD 1 0 + 1, f.getD 2 0 + 1, f.getD 3 0 + 1]) =
      ([⟨0, 0, 0⟩, ⟨1, 0, 0⟩, ⟨1, 1, 0⟩, ⟨0, 1, 0⟩], [[0, 1, 2, 3]], []) := by
  refine C5_save_load_roundtrip _ _ ?_
  intro f hf
  rw [List.mem_singleton] at hf
  subst hf
  refine ⟨rfl, ?_⟩
  intro i hi
  fin_cases hi <;> simp

theorem pyIdx_lt {n : ℕ} {i : ℤ} {j : ℕ} (h : pyIdx n i = some j) : j < n := by
  unfold pyIdx at h
  split_ifs at h with h1 h2
  · injection h with h
    omega
  · injection h with h
    omega

theorem pyGet_eq_get? {α : Type} {xs : List α} {i : ℤ} {j : ℕ}
    (h : pyIdx xs.length i = some j) : pyGet xs i = xs.get? j := by
  unfold pyGet
  rw [h]
  rfl

theorem pyGet_eq_some {α : Type} {xs : List α} {i : ℤ} {j : ℕ} (d : α)
    (h : pyIdx xs.length i = some j) : pyGet xs i = some (xs.getD j d) := by
  rw [pyGet_eq_get? h]
  exact get?_eq_some_getD xs j (pyIdx_lt h) d

theorem getD_set_self {l : List Vec3} {j : ℕ} {a : Vec3} (h : j < l.length) :
    (l.set j a).getD j 0 = a := by
  rw [List.getD_eq_getElem?_getD, List.getElem?_set]
  simp [h]

theorem getD_set_ne {l : List Vec3} {i j : ℕ} {a : Vec3} (h : i ≠ j) :
    (l.set i a).getD j 0 = l.getD j 0 := by
  rw [List.getD_eq_getElem?_getD, List.getElem?_set, if_neg h,
    ← List.getD_eq_getElem?_getD]

/-- `vertices[i]` through Python indexing with a junk default (used in
statements only where hypotheses guarantee the lookup succeeds). -/
def pyGetD (xs : List Vec3) (i : ℤ) : Vec3 := (pyGet xs i).getD 0

/-- The normal the displacer uses for a face — computed (lines 98–102) from
the face's first three indices only, reading the *original* vertex list. -/
def normalOfFace (vertices : List Vec3) (face : List ℤ) : Vec3 :=
  calculate_face_normal (pyGetD vertices (face.getD 0 0))
    (pyGetD vertices (face.getD 1 0)) (pyGetD vertices (face.getD 2 0))

/-- The heightmap sample used for the vertex with raw index `i` (via its UV,
lines 104–114). -/
def sampleOf (uvs : List (ℚ × ℚ)) (hm : ℕ → ℕ → ℚ) (hmh hmw : ℕ) (i : ℤ) : ℚ :=
  ((pyGet uvs i).bind fun uv => uvLookup hm hmh hmw uv.1 uv.2).getD 0

/-- Modelled from the spec (§4.3): the displacement vertex slot `j`
accumulates from a single face — one additive contribution
`normal * sample * displacement_scale` per occurrence in the face of an index
resolving to `j`, the normal being the face's (first-three-vertices) normal. -/
def specFaceContrib (vertices : List Vec3) (uvs : List (ℚ × ℚ))
    (hm : ℕ → ℕ → ℚ) (hmh hmw : ℕ) (ds : ℚ) (face : List ℤ) (j : ℕ) : Vec3 :=
  ((face.filter fun i => pyIdx vertices.length i == some j).map
    fun i => (sampleOf uvs hm hmh hmw i * ds) • normalOfFace vertices face).sum

theorem displaceVertex_eq (hm : ℕ → ℕ → ℚ) (hmh hmw : ℕ) (ds : ℚ)
    (uvs : List (ℚ × ℚ)) (normal : Vec3) (dv : List Vec3) (i : ℤ) (j : ℕ)
    (hh : 1 ≤ hmh) (hw : 1 ≤ hmw)
    (huvs : ∀ p ∈ uvs, 0 ≤ p.1 ∧ p.1 ≤ 1 ∧ 0 ≤ p.2 ∧ p.2 ≤ 1)
    (hju : (pyIdx uvs.length i).isSome)
    (hj : pyIdx dv.length i = some j) :
    displaceVertex hm hmh hmw ds uvs normal dv i =
      some (dv.set j (dv.getD j 0 +
        (sampleOf uvs hm hmh hmw i * ds) • normal)) := by
  obtain ⟨k, hk⟩ := Option.isSome_iff_exists.mp hju
  have hkuv : pyGet uvs i = some (uvs.getD k (0, 0)) := pyGet_eq_some (0, 0) hk
  have hmem : uvs.getD k (0, 0) ∈ uvs :=
    List.get?_mem (get?_eq_some_getD uvs k (pyIdx_lt hk) (0, 0))
  obtain ⟨h1, h2, h3, h4⟩ := huvs _ hmem
  have hlk := uvLookup_eq hm hmh hmw _ _ hh hw h1 h2 h3 h4
  have hsample : sampleOf uvs hm hmh hmw i =
      hm (truncQ ((1 - (uvs.getD k (0, 0)).2) * ((hmh : ℚ) - 1))).toNat
        (truncQ ((uvs.getD k (0, 0)).1 * ((hmw : ℚ) - 1))).toNat := by
    unfold sampleOf
    rw [hkuv, Option.some_bind, hlk]
    rfl
  have hcur : dv.get? j = some (dv.getD j 0) :=
    get?_eq_some_getD dv j (pyIdx_lt hj) 0
  rw [hsample]
  unfold displaceVertex
  rw [hkuv]
  simp only [Option.bind_eq_bind, Option.some_bind]
  rw [hlk]
  simp only [Option.some_bind]
  rw [hj]
  simp only [Option.some_bind]
  rw [hcur]
  simp only [Option.some_bind, Option.pure_def]

theorem foldlM_displace_eq (hm : ℕ → ℕ → ℚ) (hmh hmw : ℕ) (ds : ℚ)
    (uvs : List (ℚ × ℚ)) (normal : Vec3) (n : ℕ)
    (hh : 1 ≤ hmh) (hw : 1 ≤ hmw)
    (huvs : ∀ p ∈ uvs, 0 ≤ p.1 ∧ p.1 ≤ 1 ∧ 0 ≤ p.2 ∧ p.2 ≤ 1)
    (L : List ℤ)
    (hL : ∀ i ∈ L, (pyIdx n i).isSome ∧ (pyIdx uvs.length i).isSome) :
    ∀ dv : List Vec3, dv.length = n →
      ∃ dv', L.foldlM (displaceVertex hm hmh hmw ds uvs normal) dv = some dv' ∧
        dv'.length = n ∧
        ∀ j, j < n → dv'.getD j 0 = dv.getD j 0 +
          ((L.filter fun i => pyIdx n i == some j).map
            fun i => (sampleOf uvs hm hmh hmw i * ds) • normal).sum := by
  induction L with
  | nil =>
    intro dv hdv
    exact ⟨dv, rfl, hdv, fun j hj => by simp⟩
  | cons i L ih =>
    intro dv hdv
    obtain ⟨hs, hu⟩ := hL i (List.mem_cons_self ..)
    obtain ⟨j0, hj0⟩ := Option.isSome_iff_exists.mp hs
    have hstep := displaceVertex_eq hm hmh hmw ds uvs normal dv i j0 hh hw huvs
      hu (by rw [hdv]; exact hj0)
    have hlen1 : (dv.set j0 (dv.getD j0 0 +
        (sampleOf uvs hm hmh hmw i * ds) • normal)).length = n := by
      rw [List.length_set, hdv]
    obtain ⟨dv', hfold, hlen, hval⟩ :=
      ih (fun i' hi' => hL i' (List.mem_cons_of_mem _ hi')) _ hlen1
    refine ⟨dv', ?_, hlen, ?_⟩
    · rw [List.foldlM_cons, hstep]
      simpa using hfold
    · intro j hj
      rw [hval j hj, List.filter_cons]
      by_cases hjj : j0 = j
      · subst hjj
        rw [if_pos (by rw [hj0]; exact beq_self_eq_true _),
          getD_set_self (by omega), List.map_cons, List.sum_cons, add_assoc]
      · rw [if_neg (by simp [hj0, hjj]), getD_set_ne hjj]

theorem foldlM_faces_eq (vertices : List Vec3) (uvs : List (ℚ × ℚ))
    (hm : ℕ → ℕ → ℚ) (hmh hmw : ℕ) (ds : ℚ)
    (hh : 1 ≤ hmh) (hw : 1 ≤ hmw)
    (huvs : ∀ p ∈ uvs, 0 ≤ p.1 ∧ p.1 ≤ 1 ∧ 0 ≤ p.2 ∧ p.2 ≤ 1)
    (faces : List (List ℤ))
    (hfaces : ∀ f ∈ faces, 3 ≤ f.length ∧
      ∀ i ∈ f, (pyIdx vertices.length i).isSome ∧ (pyIdx uvs.length i).isSome) :
    ∀ dv : List Vec3, dv.length = vertices.length →
      ∃ dv', faces.foldlM (displaceFace vertices uvs hm hmh hmw ds) dv = some dv' ∧
        dv'.length = vertices.length ∧
        ∀ j, j < vertices.length → dv'.getD j 0 = dv.getD j 0 +
          (faces.map fun f => specFaceContrib vertices uvs hm hmh hmw ds f j).sum := by
  induction faces with
  | nil =>
    intro dv hdv
    exact ⟨dv, rfl, hdv, fun j hj => by simp⟩
  | cons f fs ih =>
    intro dv hdv
    obtain ⟨hflen, hfidx⟩ := hfaces f (List.mem_cons_self ..)
    have h0 : f.get? 0 = some (f.getD 0 0) := get?_eq_some_getD f 0 (by omega) 0
    have h1 : f.get? 1 = some (f.getD 1 0) := get?_eq_some_getD f 1 (by omega) 0
    have h2 : f.get? 2 = some (f.getD 2 0) := get?_eq_some_getD f 2 (by omega) 0
    obtain ⟨k0, hk0⟩ := Option.isSome_iff_exists.mp (hfidx _ (List.get?_mem h0)).1
    obtain ⟨k1, hk1⟩ := Option.isSome_iff_exists.mp (hfidx _ (List.get?_mem h1)).1
    obtain ⟨k2, hk2⟩ := Option.isSome_iff_exists.mp (hfidx _ (List.get?_mem h2)).1
    have hv0 : pyGet vertices (f.getD 0 0) = some (pyGetD vertices (f.getD 0 0)) := by
      unfold pyGetD
      rw [pyGet_eq_some 0 hk0]
      rfl
    have hv1 : pyGet vertices (f.getD 1 0) = some (pyGetD vertices (f.getD 1 0)) := by
      unfold pyGetD
      rw [pyGet_eq_some 0 hk1]
      rfl
    have hv2 : pyGet vertices (f.getD 2 0) = some (pyGetD vertices (f.getD 2 0)) := by
      unfold pyGetD
      rw [pyGet_eq_some 0 hk2]
      rfl
    obtain ⟨dv1, hfold1, hlen1, hval1⟩ := foldlM_displace_eq hm hmh hmw ds uvs
      (normalOfFace vertices f) vertices.length hh hw huvs f hfidx dv hdv
    have hface : displaceFace vertices uvs hm hmh hmw ds dv f = some dv1 := by
      unfold displaceFace
      rw [h0]
      simp only [Option.bind_eq_bind, Option.some_bind]
      rw [h1]
      simp only [Option.some_bind]
      rw [h2]
      simp only [Option.some_bind]
      rw [hv0]
      simp only [Option.some_bind]
      rw [hv1]
      simp only [Option.some_bind]
      rw [hv2]
      simp only [Option.some_bind]
      exact hfold1
    obtain ⟨dv', hfold, hlen, hval⟩ :=
      ih (fun g hg => hfaces g (List.mem_cons_of_mem _ hg)) dv1 hlen1
    refine ⟨dv', ?_, hlen, ?_⟩
    · rw [List.foldlM_cons, hface]
      simpa using hfold
    · intro j hj
      rw [hval j hj, hval1 j hj, List.map_cons, List.sum_cons, add_assoc]
      rfl

/-- C4: starting from a displaced-vertex array seeded with the original
positions, every vertex slot referenced by a face accumulates one additive
contribution `normal * sample * displacement_scale` per incident face
occurrence (accumulation, not averaging or single assignment), the face's
normal being computed from its first three vertices only, even for faces with
more than three indices. -/
theorem C4_accumulated_displacement (vertices : List Vec3)
    (faces : List (List ℤ)) (uvs : List (ℚ × ℚ)) (hm : ℕ → ℕ → ℚ)
    (hmh hmw : ℕ) (ds : ℚ) (hh : 1 ≤ hmh) (hw : 1 ≤ hmw)
    (huvs : ∀ p ∈ uvs, 0 ≤ p.1 ∧ p.1 ≤ 1 ∧ 0 ≤ p.2 ∧ p.2 ≤ 1)
    (hfaces : ∀ f ∈ faces, 3 ≤ f.length ∧
      ∀ i ∈ f, (pyIdx vertices.length i).isSome ∧ (pyIdx uvs.length i).isSome) :
    ∃ dv, displace_vertices vertices uvs hm hmh hmw ds faces = some dv ∧
      dv.length = vertices.length ∧
      ∀ j, j < vertices.length → dv.getD j 0 = vertices.getD j 0 +
        (faces.map fun f => specFaceContrib vertices uvs hm hmh hmw ds f j).sum :=
  foldlM_faces_eq vertices uvs hm hmh hmw ds hh hw huvs faces hfaces vertices rfl

/-- Witness for C4 on a concrete one-triangle mesh over a 1×1 heightmap. -/
theorem C4_accumulated_displacement_witness :
    ∃ dv, displace_vertices [⟨0, 0, 0⟩, ⟨1, 0, 0⟩, ⟨0, 1, 0⟩]
        [(0, 0), (1, 1), (0, 1)] (fun _ _ => 1) 1 1 1 [[0, 1, 2]] = some dv ∧
      dv.length = [⟨0, 0, 0⟩, ⟨1, 0, 0⟩, (⟨0, 1, 0⟩ : Vec3)].length ∧
      ∀ j, j < [⟨0, 0, 0⟩, ⟨1, 0, 0⟩, (⟨0, 1, 0⟩ : Vec3)].length →
        dv.getD j 0 = [⟨0, 0, 0⟩, ⟨1, 0, 0⟩, (⟨0, 1, 0⟩ : Vec3)].getD j 0 +
          ([[0, 1, 2]].map fun f => specFaceContrib
            [⟨0, 0, 0⟩, ⟨1, 0, 0⟩, ⟨0, 1, 0⟩] [(0, 0), (1, 1), (0, 1)]
            (fun _ _ => 1) 1 1 1 f j).sum := by
  refine C4_accumulated_displacement _ _ _ _ _ _ _ (by omega) (by omega) ?_ ?_
  · intro p hp
    fin_cases hp <;> norm_num
  · intro f hf
    rw [List.mem_singleton] at hf
    subst hf
    refine ⟨by decide, ?_⟩
    intro i hi
    fin_cases hi <;> exact ⟨by decide, by decide⟩

theorem apply_isSome (vertices : List Vec3) (faces : List (List ℤ))
    (uvs : List (ℚ × ℚ)) (hm : ℕ → ℕ → ℚ) (hmh hmw : ℕ) (ds : ℚ)
    (hh : 1 ≤ hmh) (hw : 1 ≤ hmw)
    (huvs : ∀ p ∈ uvs, 0 ≤ p.1 ∧ p.1 ≤ 1 ∧ 0 ≤ p.2 ∧ p.2 ≤ 1)
    (hfaces : ∀ f ∈ faces, 4 ≤ f.length ∧
      ∀ i ∈ f, (pyIdx vertices.length i).isSome ∧ (pyIdx uvs.length i).isSome) :
    (apply_heightfield_to_obj vertices faces uvs hm hmh hmw ds).isSome := by
  obtain ⟨dv, hdv, hlen, hval⟩ := foldlM_faces_eq vertices uvs hm hmh hmw ds hh hw
    huvs faces
    (fun f hf => ⟨by have := (hfaces f hf).1; omega, (hfaces f hf).2⟩) vertices rfl
  unfold apply_heightfield_to_obj
  unfold displace_vertices
  rw [hdv]
  simp only [Option.bind_eq_bind, Option.some_bind]
  rw [save_obj_eq dv faces fun f hf => (hfaces f hf).1]
  rfl

theorem pyIdx_eq_none {n : ℕ} {i : ℤ}
    (h : i < -(n : ℤ) ∨ (n : ℤ) ≤ i) : pyIdx n i = none := by
  unfold pyIdx
  split_ifs with h1 h2
  · exfalso
    omega
  · exfalso
    omega
  · rfl

theorem option_bind_none {α β : Type} (x : Option α) {f : α → Option β}
    (h : ∀ a, f a = none) : x >>= f = none := by
  cases x with
  | none => rfl
  | some a => exact h a

theorem displaceVertex_length {hm : ℕ → ℕ → ℚ} {hmh hmw : ℕ} {ds : ℚ}
    {uvs : List (ℚ × ℚ)} {normal : Vec3} {dv dv' : List Vec3} {i : ℤ}
    (h : displaceVertex hm hmh hmw ds uvs normal dv i = some dv') :
    dv'.length = dv.length := by
  unfold displaceVertex at h
  simp only [Option.bind_eq_bind, Option.bind_eq_some, Option.pure_def,
    Option.some.injEq] at h
  obtain ⟨uv, _, hv, _, j, _, cur, _, rfl⟩ := h
  exact List.length_set ..

theorem displaceVertex_none {hm : ℕ → ℕ → ℚ} {hmh hmw : ℕ} {ds : ℚ}
    {uvs : List (ℚ × ℚ)} {normal : Vec3} {dv : List Vec3} {i : ℤ}
    (hbad : pyIdx dv.length i = none ∨ pyIdx uvs.length i = none) :
    displaceVertex hm hmh hmw ds uvs normal dv i = none := by
  unfold displaceVertex
  rcases hbad with hb | hb
  · refine option_bind_none _ fun uv => option_bind_none _ fun hv => ?_
    rw [hb]
    rfl
  · have hg : pyGet uvs i = none := by
      unfold pyGet
      rw [hb]
      rfl
    rw [hg]
    rfl

theorem foldlM_option_inv {α σ : Type} (P : σ → Prop) (f : σ → α → Option σ)
    (hpres : ∀ s a s', f s a = some s' → P s → P s') :
    ∀ (l : List α) (s s' : σ), l.foldlM f s = some s' → P s → P s'
  | [], s, s', h, hs => by
    rw [List.foldlM_nil] at h
    cases h
    exact hs
  | a :: l, s, s', h, hs => by
    rw [List.foldlM_cons] at h
    cases hfa : f s a with
    | none =>
      rw [hfa] at h
      cases h
    | some s1 =>
      rw [hfa] at h
      simp only [Option.bind_eq_bind, Option.some_bind] at h
      exact foldlM_option_inv P f hpres l s1 s' h (hpres s a s1 hfa hs)

theorem foldlM_none {α σ : Type} (P : σ → Prop) (f : σ → α → Option σ)
    (hpres : ∀ s a s', f s a = some s' → P s → P s') (bad : α)
    (hfail : ∀ s, P s → f s bad = none) :
    ∀ (l : List α), bad ∈ l → ∀ s, P s → l.foldlM f s = none
  | [], hmem, _, _ => absurd hmem (List.not_mem_nil _)
  | a :: l, hmem, s, hs => by
    rw [List.foldlM_cons]
    rcases List.mem_cons.mp hmem with rfl | hmem2
    · rw [hfail s hs]
      rfl
    · cases hfa : f s a with
      | none => rfl
      | some s1 =>
        simp only [Option.bind_eq_bind, Option.some_bind]
        exact foldlM_none P f hpres bad hfail l hmem2 s1 (hpres s a s1 hfa hs)

theorem displaceFace_length {vertices : List Vec3} {uvs : List (ℚ × ℚ)}
    {hm : ℕ → ℕ → ℚ} {hmh hmw : ℕ} {ds : ℚ} {dv dv' : List Vec3}
    {face : List ℤ}
    (h : displaceFace vertices uvs hm hmh hmw ds dv face = some dv') :
    dv'.length = dv.length := by
  unfold displaceFace at h
  simp only [Option.bind_eq_bind, Option.bind_eq_some] at h
  obtain ⟨i0, _, i1, _, i2, _, v0, _, v1, _, v2, _, hfold⟩ := h
  exact foldlM_option_inv (fun s => s.length = dv.length) _
    (fun s a s' hsome hs => (displaceVertex_length hsome).trans hs)
    face dv dv' hfold rfl

theorem displaceFace_none {vertices : List Vec3} {uvs : List (ℚ × ℚ)}
    {hm : ℕ → ℕ → ℚ} {hmh hmw : ℕ} {ds : ℚ} {dv : List Vec3} {face : List ℤ}
    (hdv : dv.length = vertices.length) {i : ℤ} (hi : i ∈ face)
    (hbad : pyIdx vertices.length i = none ∨ pyIdx uvs.length i = none) :
    displaceFace vertices uvs hm hmh hmw ds dv face = none := by
  unfold displaceFace
  refine option_bind_none _ fun i0 => option_bind_none _ fun i1 =>
    option_bind_none _ fun i2 => option_bind_none _ fun v0 =>
    option_bind_none _ fun v1 => option_bind_none _ fun v2 => ?_
  exact foldlM_none (fun s : List Vec3 => s.length = vertices.length)
    (displaceVertex hm hmh hmw ds uvs (calculate_face_normal v0 v1 v2))
    (fun s a s' hsome hs => (displaceVertex_length hsome).trans hs)
    i
    (fun s hs => displaceVertex_none (by
      rcases hbad with hb | hb
      · exact Or.inl (by rw [hs]; exact hb)
      · exact Or.inr hb))
    face hi dv hdv

/-- C6 (amended): an index `i` in some face with `i < -len` or `i ≥ len` for
the vertex array or the UV array makes the displacer raise `IndexError`
(`none`); note that negative indices in `[-len, -1]` wrap Python-style to the
end of the arrays and do *not* raise (see the counterexample). -/
theorem C6_index_error_amended (vertices : List Vec3) (faces : List (List ℤ))
    (uvs : List (ℚ × ℚ)) (hm : ℕ → ℕ → ℚ) (hmh hmw : ℕ) (ds : ℚ)
    (hbad : ∃ f ∈ faces, ∃ i ∈ f,
      (i < -(vertices.length : ℤ) ∨ (vertices.length : ℤ) ≤ i) ∨
      (i < -(uvs.length : ℤ) ∨ (uvs.length : ℤ) ≤ i)) :
    apply_heightfield_to_obj vertices faces uvs hm hmh hmw ds = none := by
  obtain ⟨f, hf, i, hi, hb⟩ := hbad
  have hnone : pyIdx vertices.length i = none ∨ pyIdx uvs.length i = none := by
    rcases hb with hb | hb
    · exact Or.inl (pyIdx_eq_none hb)
    · exact Or.inr (pyIdx_eq_none hb)
  have hdisp : displace_vertices vertices uvs hm hmh hmw ds faces = none := by
    unfold displace_vertices
    exact foldlM_none (fun s : List Vec3 => s.length = vertices.length)
      (displaceFace vertices uvs hm hmh hmw ds)
      (fun s a s' hsome hs => (displaceFace_length hsome).trans hs)
      f (fun s hs => displaceFace_none hs hi hnone) faces hf vertices rfl
  unfold apply_heightfield_to_obj
  rw [hdisp]
  rfl

/-- Witness for the amended C6: index 5 in a 2-vertex, 2-UV mesh raises. -/
theorem C6_index_error_amended_witness :
    apply_heightfield_to_obj [⟨0, 0, 0⟩, ⟨1, 0, 0⟩] [[0, 1, 5, 0]]
      [(0, 0), (0, 0)] (fun _ _ => 0) 1 1 1 = none :=
  C6_index_error_amended _ _ _ _ _ _ _
    ⟨[0, 1, 5, 0], by decide, 5, by decide, by decide⟩

/-- Counterexample to C6 as stated: the face index `-1` is outside the
zero-based bounds `[0, len)` of the loaded 4-vertex/4-UV arrays, yet the
displacer does not fail — Python wraps `-1` to the last element and the run
completes with output. -/
theorem C6_counterexample :
    ((-1 : ℤ) ∈ [(-1 : ℤ), 0, 1, 2] ∧
      ¬ (0 ≤ (-1 : ℤ) ∧ (-1 : ℤ) <
        ([⟨0, 0, 0⟩, ⟨1, 0, 0⟩, ⟨0, 1, 0⟩, (⟨0, 0, 1⟩ : Vec3)].length : ℤ))) ∧
    (apply_heightfield_to_obj [⟨0, 0, 0⟩, ⟨1, 0, 0⟩, ⟨0, 1, 0⟩, ⟨0, 0, 1⟩]
      [[-1, 0, 1, 2]] [(0, 0), (0, 0), (0, 0), (0, 0)]
      (fun _ _ => 1/2) 2 2 1).isSome := by
  refine ⟨by decide, ?_⟩
  refine apply_isSome _ _ _ _ _ _ _ (by omega) (by omega) ?_ ?_
  · intro p hp
    fin_cases hp <;> norm_num
  · intro f hf
    rw [List.mem_singleton] at hf
    subst hf
    refine ⟨by decide, ?_⟩
    intro i hi
    fin_cases hi <;> exact ⟨by decide, by decide⟩

/-- The cross product of the two edge vectors spanned by a face's first three
vertices; it is the zero vector exactly when they are collinear/coincident. -/
def crossOfFace (vertices : List Vec3) (face : List ℤ) : Vec3 :=
  cross (vsub (pyGetD vertices (face.getD 1 0)) (pyGetD vertices (face.getD 0 0)))
    (vsub (pyGetD vertices (face.getD 2 0)) (pyGetD vertices (face.getD 0 0)))

/-- C7 (amended): a face whose first three vertices are collinear or
coincident does NOT abort the displacer.  numpy divides the zero cross product
by its zero norm, producing a NaN normal with only a `RuntimeWarning`; the
run continues and still writes output (for otherwise valid topology).  In the
exact model the junk normal is the zero vector; the claim here is only about
completion, not about the junk values. -/
theorem C7_degenerate_normal_amended (vertices : List Vec3)
    (faces : List (List ℤ)) (uvs : List (ℚ × ℚ)) (hm : ℕ → ℕ → ℚ)
    (hmh hmw : ℕ) (ds : ℚ) (hh : 1 ≤ hmh) (hw : 1 ≤ hmw)
    (huvs : ∀ p ∈ uvs, 0 ≤ p.1 ∧ p.1 ≤ 1 ∧ 0 ≤ p.2 ∧ p.2 ≤ 1)
    (hfaces : ∀ f ∈ faces, 4 ≤ f.length ∧
      ∀ i ∈ f, (pyIdx vertices.length i).isSome ∧ (pyIdx uvs.length i).isSome)
    (hdeg : ∃ f ∈ faces, crossOfFace vertices f = ⟨0, 0, 0⟩) :
    (apply_heightfield_to_obj vertices faces uvs hm hmh hmw ds).isSome :=
  apply_isSome vertices faces uvs hm hmh hmw ds hh hw huvs hfaces

/-- Witness for the amended C7: a quad whose first three vertices are
collinear still lets the displacer complete. -/
theorem C7_degenerate_normal_amended_witness :
    (apply_heightfield_to_obj [⟨0, 0, 0⟩, ⟨1, 0, 0⟩, ⟨2, 0, 0⟩, ⟨0, 1, 0⟩]
      [[0, 1, 2, 3]] [(0, 0), (0, 0), (0, 0), (0, 0)]
      (fun _ _ => 1/2) 2 2 1).isSome := by
  refine C7_degenerate_normal_amended _ _ _ _ _ _ _ (by omega) (by omega) ?_ ?_ ?_
  · intro p hp
    fin_cases hp <;> norm_num
  · intro f hf
    rw [List.mem_singleton] at hf
    subst hf
    refine ⟨by decide, ?_⟩
    intro i hi
    fin_cases hi <;> exact ⟨by decide, by decide⟩
  · refine ⟨[0, 1, 2, 3], by decide, ?_⟩
    norm_num [crossOfFace, cross, vsub, pyGetD, pyGet, pyIdx, Int.toNat]

/-- Counterexample to C7 as stated: a mesh containing a degenerate face
(collinear first three vertices, zero cross product) for which the displacer
nevertheless completes and produces output instead of aborting. -/
theorem C7_counterexample :
    crossOfFace [⟨0, 0, 0⟩, ⟨1, 0, 0⟩, ⟨2, 0, 0⟩, ⟨0, 1, 0⟩] [0, 1, 2, 3] =
      ⟨0, 0, 0⟩ ∧
    (apply_heightfield_to_obj [⟨0, 0, 0⟩, ⟨1, 0, 0⟩, ⟨2, 0, 0⟩, ⟨0, 1, 0⟩]
      [[0, 1, 2, 3]] [(0, 0), (0, 0), (0, 0), (0, 0)]
      (fun _ _ => 1/2) 2 2 1).isSome := by
  constructor
  · norm_num [crossOfFace, cross, vsub, pyGetD, pyGet, pyIdx, Int.toNat]
  · refine apply_isSome _ _ _ _ _ _ _ (by omega) (by omega) ?_ ?_
    · intro p hp
      fin_cases hp <;> norm_num
    · intro f hf
      rw [List.mem_singleton] at hf
      subst hf
      refine ⟨by decide, ?_⟩
      intro i hi
      fin_cases hi <;> exact ⟨by decide, by decide⟩

end Apply
